import Mathlib

/-!
Shallow embedding of `Module_AI_Map/util_chip/layout.py` from the HISIM
repository: the `TierLayout` value type and the `ChipletLayout` aggregate,
with construction-time validation, geometric queries, dict serialization
and index-to-coordinate addressing.

Python integers are modelled as `Int`; Python lists as `List`; Python dicts
as association lists keyed by `String`; exceptions as `Except Err`.
The Python operators `//` and `%` are floor division and floor modulus, modelled by
`Int.fdiv` and `Int.fmod`.
-/

namespace HISIM

/-- The exception kinds the module can raise.  `valueError` is the Python
`ValueError` (the ValidationError of the spec); `indexError` is the
Python `IndexError` (the bounds error of the spec); `typeError` is the
Python `TypeError`. -/
inductive Err : Type where
  | valueError
  | indexError
  | typeError
  deriving DecidableEq, Repr

instance exceptDecEq {ε α : Type} [DecidableEq ε] [DecidableEq α] :
    DecidableEq (Except ε α)
  | .ok a, .ok b =>
    if h : a = b then .isTrue (by rw [h]) else .isFalse (by simp [h])
  | .ok _, .error _ => .isFalse (by simp)
  | .error _, .ok _ => .isFalse (by simp)
  | .error e, .error f =>
    if h : e = f then .isTrue (by rw [h]) else .isFalse (by simp [h])

/-- Embeds the frozen dataclass `TierLayout`: the four integer fields.
The `rows > 0 ∧ cols > 0` check of `__post_init__` lives in
`mkTierLayout`; `TierLayout.Valid` records it as a predicate. -/
structure TierLayout where
  rows : Int
  cols : Int
  origin_row : Int
  origin_col : Int
  deriving DecidableEq, Repr

/-- The invariant `__post_init__` establishes for every constructed
`TierLayout` object. -/
def TierLayout.Valid (t : TierLayout) : Prop := 0 < t.rows ∧ 0 < t.cols

instance (t : TierLayout) : Decidable t.Valid := by
  unfold TierLayout.Valid; infer_instance

/-- Embeds `TierLayout.__init__` and `__post_init__`: raises `ValueError` when
`rows <= 0 or cols <= 0`, otherwise yields the frozen record. -/
def mkTierLayout (rows cols origin_row origin_col : Int) : Except Err TierLayout :=
  if rows ≤ 0 ∨ cols ≤ 0 then .error .valueError
  else .ok ⟨rows, cols, origin_row, origin_col⟩

/-- The `capacity` property: `rows * cols`. -/
def TierLayout.capacity (t : TierLayout) : Int := t.rows * t.cols

/-- The dataclass-generated `__eq__`: field-wise comparison of the four
fields. -/
def TierLayout.beq (a b : TierLayout) : Bool :=
  a.rows == b.rows && a.cols == b.cols &&
    a.origin_row == b.origin_row && a.origin_col == b.origin_col

/-- Embeds `ChipletLayout`: the normalized `_stacks` list of lists (named `stackList` here: `stacks` is a reserved token in Mathlib). -/
structure ChipletLayout where
  stackList : List (List TierLayout)
  deriving DecidableEq, Repr

/-- Embeds `ChipletLayout.__init__`: raises `ValueError` when the stack sequence
is empty, when some stack is empty, or when two stacks of it have different
tier counts; otherwise stores the list. -/
def ChipletLayout.make (stackList : List (List TierLayout)) : Except Err ChipletLayout :=
  if stackList.isEmpty then .error .valueError
  else if stackList.any (fun s => s.isEmpty) then .error .valueError
  else if stackList.all (fun s => s.length == (stackList.headD []).length) then .ok ⟨stackList⟩
  else .error .valueError

/-- The structural invariant `__init__` enforces: at least one stack,
every stack nonempty, all stacks of equal length. -/
def ChipletLayout.Invariant (L : ChipletLayout) : Prop :=
  L.stackList ≠ [] ∧ ∀ s ∈ L.stackList, s ≠ [] ∧ s.length = (L.stackList.headD []).length

/-- In Python every `TierLayout` object satisfies its `__post_init__`
invariant, so the tiers of every layout are valid; recorded as a predicate. -/
def ChipletLayout.ValidTiers (L : ChipletLayout) : Prop :=
  ∀ s ∈ L.stackList, ∀ t ∈ s, t.Valid

instance (L : ChipletLayout) : Decidable L.Invariant := by
  unfold ChipletLayout.Invariant; infer_instance

instance (L : ChipletLayout) : Decidable L.ValidTiers := by
  unfold ChipletLayout.ValidTiers; infer_instance

/-- Resolution of a Python list index against a length: a negative
index is taken from the end (`i + n`). -/
def pyResolve (n : Nat) (i : Int) : Int := if i < 0 then i + n else i

/-- Python list subscription `l[i]`: the resolved index must land in
`[0, len(l))`, otherwise `IndexError`. -/
def pyIdx {α : Type} (l : List α) (i : Int) : Except Err α :=
  if h : 0 ≤ pyResolve l.length i ∧ (pyResolve l.length i).toNat < l.length then
    .ok (l.get ⟨(pyResolve l.length i).toNat, h.2⟩)
  else .error .indexError

/-- Accessor `stack_count`: `len(self._stacks)`. -/
def ChipletLayout.stack_count (L : ChipletLayout) : Nat := L.stackList.length

/-- Accessor `tier_count`: `len(self._stacks[0])` (well-defined on constructed
layouts, whose stack list is nonempty). -/
def ChipletLayout.tier_count (L : ChipletLayout) : Nat := (L.stackList.headD []).length

/-- Accessor `stack(stack_idx)`: `self._stacks[stack_idx]` with Python indexing. -/
def ChipletLayout.stackE (L : ChipletLayout) (stack_idx : Int) :
    Except Err (List TierLayout) :=
  pyIdx L.stackList stack_idx

/-- Accessor `tier(stack_idx, tier_idx)`: `self._stacks[stack_idx][tier_idx]`. -/
def ChipletLayout.tierE (L : ChipletLayout) (stack_idx tier_idx : Int) :
    Except Err TierLayout := do
  let s ← pyIdx L.stackList stack_idx
  pyIdx s tier_idx

/-- Accessor `tier_capacity(stack_idx, tier_idx)`: `self.tier(...).capacity`. -/
def ChipletLayout.tier_capacityE (L : ChipletLayout) (stack_idx tier_idx : Int) :
    Except Err Int :=
  (L.tierE stack_idx tier_idx).map TierLayout.capacity

/-- Accessor `tier_shape(stack_idx, tier_idx)`: `(tier.rows, tier.cols)`. -/
def ChipletLayout.tier_shapeE (L : ChipletLayout) (stack_idx tier_idx : Int) :
    Except Err (Int × Int) :=
  (L.tierE stack_idx tier_idx).map (fun t => (t.rows, t.cols))

/-- Accessor `tier_origin(stack_idx, tier_idx)`: `(tier.origin_row, tier.origin_col)`. -/
def ChipletLayout.tier_originE (L : ChipletLayout) (stack_idx tier_idx : Int) :
    Except Err (Int × Int) :=
  (L.tierE stack_idx tier_idx).map (fun t => (t.origin_row, t.origin_col))

/-- Embeds `iter_tiers()`: every tier in stack-major, tier-minor order. -/
def ChipletLayout.allTiers (L : ChipletLayout) : List TierLayout :=
  L.stackList.flatten

/-- Embeds `global_shape()`.  The source seeds running min/max with `None` and
folds `self.tier(stack, tier)` over `stack < stack_count()`,
`tier < tier_count()`; by the constructor invariant every stack has
exactly `tier_count()` tiers, so the visited tiers are exactly
`allTiers`, and the `None` seed makes the first visited tier the seed of
the four folds. -/
def ChipletLayout.global_shape (L : ChipletLayout) : Int × Int :=
  match L.allTiers with
  | [] => (0, 0)
  | t :: ts =>
    let min_row := ts.foldl (fun m x => min m x.origin_row) t.origin_row
    let min_col := ts.foldl (fun m x => min m x.origin_col) t.origin_col
    let max_row := ts.foldl (fun m x => max m (x.origin_row + x.rows)) (t.origin_row + t.rows)
    let max_col := ts.foldl (fun m x => max m (x.origin_col + x.cols)) (t.origin_col + t.cols)
    (max_row - min_row, max_col - min_col)

/-- Dynamically typed Python values as they occur in the interchange
dicts: integers, strings, lists, and string-keyed dicts (modelled as
association lists; lookups take the first matching key). -/
inductive PyVal : Type where
  | int (n : Int)
  | str (s : String)
  | list (xs : List PyVal)
  | dict (kvs : List (String × PyVal))

/-- Embeds `dict.get(k)` on a `Mapping`, returning `none` when absent. -/
def pyGetKey (kvs : List (String × PyVal)) (k : String) : Option PyVal :=
  match kvs.find? (fun p => p.1 == k) with
  | some p => some p.2
  | none => none

/-- Embeds `isinstance(v, Sequence)`, returning the element sequence: lists are
sequences, and a string is a `Sequence` of its one-character strings;
integers and mappings are not sequences. -/
def asSequence : PyVal → Option (List PyVal)
  | .list xs => some xs
  | .str s => some (s.data.map (fun c => .str (String.singleton c)))
  | _ => none

/-- The CPython whitespace test applied by `int()` when stripping a
string, restricted to ASCII: tab through carriage return (0x09-0x0d),
the separator controls 0x1c-0x1f, and space. -/
def pyIsSpace (c : Char) : Bool :=
  (9 ≤ c.toNat && c.toNat ≤ 13) || (28 ≤ c.toNat && c.toNat ≤ 31) || c.toNat == 32

/-- Decimal digits with PEP 515 underscore grouping, after a first
digit has been read: an underscore is only allowed between two digits. -/
def digitsRest : List Char → Nat → Option Nat
  | [], acc => some acc
  | '_' :: c :: cs, acc =>
    if c.isDigit then digitsRest cs (acc * 10 + (c.toNat - 48)) else none
  | '_' :: [], _ => none
  | c :: cs, acc =>
    if c.isDigit then digitsRest cs (acc * 10 + (c.toNat - 48)) else none

/-- A nonempty underscore-grouped run of decimal digits: the first
character must be a digit. -/
def parseDigits : List Char → Option Nat
  | [] => none
  | c :: cs => if c.isDigit then digitsRest cs (c.toNat - 48) else none

/-- Structural model of the CPython builtin `int()` on a string:
surrounding whitespace is stripped, then an optional sign precedes a
nonempty underscore-grouped decimal digit run.  This matches CPython
exactly on ASCII strings; CPython additionally accepts non-ASCII
decimal digits and non-ASCII whitespace, which lie outside the modeled
character range and are treated as parse failures here (the theorems
that assert a parse failure are restricted to ASCII strings). -/
def strToInt? (s : String) : Option Int :=
  match ((s.data.dropWhile pyIsSpace).reverse.dropWhile pyIsSpace).reverse with
  | '+' :: rest => (parseDigits rest).map (fun n => (n : Int))
  | '-' :: rest => (parseDigits rest).map (fun n => -(n : Int))
  | rest => (parseDigits rest).map (fun n => (n : Int))

/-- Restriction to the modeled ASCII character range. -/
def isAsciiStr (s : String) : Bool := s.data.all (fun c => c.toNat < 128)

/-- The builtin `int(v)`: an `int` passes through, a string is parsed in
base 10 (`ValueError` when it does not parse), a list or dict raises
`TypeError`. -/
def intCoerce : PyVal → Except Err Int
  | .int n => .ok n
  | .str s =>
    match strToInt? s with
    | some n => .ok n
    | none => .error .valueError
  | .list _ => .error .typeError
  | .dict _ => .error .typeError

/-- The required-field lookup of the tier loop of `from_dict`:
`int(tier[k])` with the `KeyError` for a missing key re-raised as
`ValueError`. -/
def fetchRequired (kvs : List (String × PyVal)) (k : String) : Except Err Int :=
  match pyGetKey kvs k with
  | none => .error .valueError
  | some x => intCoerce x

/-- The tier-parsing body of the inner loop of `from_dict`: a non-mapping
entry raises `ValueError`; `rows`/`cols` are required (a `KeyError` is
re-raised as `ValueError`), `origin_row`/`origin_col` default to `0`;
each value goes through `int(...)`; the `TierLayout` constructor then
validates the dimensions. -/
def parseTier (v : PyVal) : Except Err TierLayout :=
  match v with
  | .dict kvs =>
    fetchRequired kvs "rows" >>= fun rows =>
    fetchRequired kvs "cols" >>= fun cols =>
    intCoerce ((pyGetKey kvs "origin_row").getD (.int 0)) >>= fun origin_row =>
    intCoerce ((pyGetKey kvs "origin_col").getD (.int 0)) >>= fun origin_col =>
    mkTierLayout rows cols origin_row origin_col
  | _ => .error .valueError

/-- The stack-parsing body of the outer loop of `from_dict`: a non-sequence
entry raises `ValueError`; otherwise the tiers are parsed in order. -/
def parseStack (v : PyVal) : Except Err (List TierLayout) :=
  match asSequence v with
  | none => .error .valueError
  | some tiers => tiers.mapM parseTier

/-- Embeds `ChipletLayout.from_dict`: the value under the key `stacks` must be a sequence
(`None` from a missing key is not); each stack entry is parsed by
`parseStack` and the result goes through the validating constructor. -/
def ChipletLayout.from_dict (data : List (String × PyVal)) :
    Except Err ChipletLayout :=
  match pyGetKey data "stacks" with
  | none => .error .valueError
  | some v =>
    match asSequence v with
    | none => .error .valueError
    | some entries => do
      let parsed ← entries.mapM parseStack
      ChipletLayout.make parsed

/-- The per-tier dict built by the inner loop of `to_dict`. -/
def TierLayout.to_dict (t : TierLayout) : PyVal :=
  .dict [("rows", .int t.rows), ("cols", .int t.cols),
         ("origin_row", .int t.origin_row), ("origin_col", .int t.origin_col)]

/-- Embeds `ChipletLayout.to_dict`: one `stacks` key holding the list
of stacks, each a list of tier dicts, preserving stack and tier order. -/
def ChipletLayout.to_dict (L : ChipletLayout) : List (String × PyVal) :=
  [("stacks", .list (L.stackList.map (fun s => .list (s.map TierLayout.to_dict))))]

/-- The in-bounds computation of `position_from_index` (the source
lines after the bounds check): raster row/column by Python `//` and `%`,
serpentine column reversal on odd rows, mirror flip of both coordinates,
translation by the origin. -/
def posCore (layout : TierLayout) (serpentine mirror : Bool) (tile_index : Int) :
    Int × Int :=
  let row := Int.fdiv tile_index layout.cols
  let col := Int.fmod tile_index layout.cols
  let col := if serpentine && Int.fmod row 2 == 1 then layout.cols - col - 1 else col
  let row := if mirror then layout.rows - row - 1 else row
  let col := if mirror then layout.cols - col - 1 else col
  (layout.origin_row + row, layout.origin_col + col)

/-- Proof-side inverse of `posCore`: undoes the translation, the mirror,
and the serpentine reversal, then re-rasterizes. -/
def posCoreInv (layout : TierLayout) (serpentine mirror : Bool) (p : Int × Int) : Int :=
  let row := p.1 - layout.origin_row
  let col := p.2 - layout.origin_col
  let row := if mirror then layout.rows - row - 1 else row
  let col := if mirror then layout.cols - col - 1 else col
  let col := if serpentine && Int.fmod row 2 == 1 then layout.cols - col - 1 else col
  row * layout.cols + col

/-- Embeds `position_from_index`: resolves the tier, bounds-checks
`tile_index` against the tier capacity, and runs `posCore`. -/
def ChipletLayout.position_from_index (L : ChipletLayout)
    (stack_idx tier_idx tile_index : Int) (serpentine mirror : Bool) :
    Except Err (Int × Int) := do
  let layout ← L.tierE stack_idx tier_idx
  if tile_index < 0 ∨ layout.capacity ≤ tile_index then
    .error .indexError
  else
    .ok (posCore layout serpentine mirror tile_index)

/-- Claim-side addressing formula, written from the numbered spec
steps with mathematical `div`/`mod` (`Int.ediv`/`Int.emod`, which agree
with the Python floor division on the nonnegative in-range indices):
(1) raster `row = i div cols`, `col = i mod cols`; (2) serpentine
reverses the column on odd rows; (3) mirror, applied after serpentine,
sends `row` to `rows - 1 - row` and `col` to `cols - 1 - col`;
(4) translate by the origin. -/
def specPosition (rows cols origin_row origin_col : Int) (serp mir : Bool)
    (i : Int) : Int × Int :=
  let row := i / cols
  let col := i % cols
  let col := if serp && row % 2 == 1 then cols - 1 - col else col
  let row := if mir then rows - 1 - row else row
  let col := if mir then cols - 1 - col else col
  (origin_row + row, origin_col + col)

/-- A concrete 3x3 tier at origin (0,0), the worked example of the spec. -/
def sampleTier : TierLayout := ⟨3, 3, 0, 0⟩

/-- A concrete one-stack, one-tier layout holding `sampleTier`. -/
def sampleLayout : ChipletLayout := ⟨[[sampleTier]]⟩

/-! ## Theorems -/

/-- C9: `TierLayout` construction raises `ValidationError` exactly when
`rows ≤ 0` or `cols ≤ 0`; every constructed descriptor is the record of
its four arguments, is valid, and has `capacity = rows * cols > 0`;
descriptor equality is field-wise equality of the four fields; and
`TierLayout(rows=2, cols=3).capacity == 6`. -/
theorem tierLayout_spec :
    (∀ r c a b : Int, mkTierLayout r c a b = .error .valueError ↔ r ≤ 0 ∨ c ≤ 0) ∧
    (∀ r c a b : Int, ∀ t, mkTierLayout r c a b = .ok t →
      t = ⟨r, c, a, b⟩ ∧ t.Valid ∧ t.capacity = t.rows * t.cols ∧ 0 < t.capacity) ∧
    (∀ t₁ t₂ : TierLayout, t₁.beq t₂ = true ↔ t₁ = t₂) ∧
    (mkTierLayout 2 3 0 0 = .ok ⟨2, 3, 0, 0⟩ ∧
      TierLayout.capacity ⟨2, 3, 0, 0⟩ = 6) := by
  refine ⟨?_, ?_, ?_, ?_⟩
  · intro r c a b
    by_cases h : r ≤ 0 ∨ c ≤ 0 <;> simp [mkTierLayout, h]
  · intro r c a b t h
    by_cases hrc : r ≤ 0 ∨ c ≤ 0
    · simp [mkTierLayout, hrc] at h
    · simp only [mkTierLayout, if_neg hrc] at h
      injection h with h
      subst h
      push_neg at hrc
      exact ⟨rfl, ⟨hrc.1, hrc.2⟩, rfl, mul_pos hrc.1 hrc.2⟩
  · intro t₁ t₂
    cases t₁; cases t₂
    simp [TierLayout.beq, TierLayout.mk.injEq, and_assoc]
  · exact ⟨by decide, by decide⟩

/-- Witness for C9 at concrete inputs. -/
theorem tierLayout_spec_witness :
    (mkTierLayout 0 3 0 0 = .error .valueError ↔ (0 : Int) ≤ 0 ∨ (3 : Int) ≤ 0) ∧
    (sampleTier.beq sampleTier = true ↔ sampleTier = sampleTier) ∧
    ((⟨2, 3, 0, 0⟩ : TierLayout) = ⟨2, 3, 0, 0⟩ ∧ TierLayout.Valid ⟨2, 3, 0, 0⟩ ∧
      TierLayout.capacity ⟨2, 3, 0, 0⟩ =
        TierLayout.rows ⟨2, 3, 0, 0⟩ * TierLayout.cols ⟨2, 3, 0, 0⟩ ∧
      0 < TierLayout.capacity ⟨2, 3, 0, 0⟩) :=
  ⟨tierLayout_spec.1 0 3 0 0, tierLayout_spec.2.2.1 sampleTier sampleTier,
    tierLayout_spec.2.1 2 3 0 0 ⟨2, 3, 0, 0⟩ (by decide)⟩

/-- C4: `ChipletLayout` construction raises `ValidationError` exactly
when the stack sequence is empty, some stack is empty, or two stacks
have different tier counts; otherwise it succeeds, and a constructed
layout satisfies the invariant.  The two concrete scenarios:
`ChipletLayout([[TierLayout(rows=0, cols=3)]])` (which fails inside the
`TierLayout` constructor) and `ChipletLayout([])` both fail with
`ValidationError`. -/
theorem make_validation_spec :
    (∀ sl : List (List TierLayout),
      ChipletLayout.make sl = .error .valueError ↔
        sl = [] ∨ (∃ s ∈ sl, s = []) ∨ ∃ s₁ ∈ sl, ∃ s₂ ∈ sl, s₁.length ≠ s₂.length) ∧
    (∀ sl : List (List TierLayout), ∀ L, ChipletLayout.make sl = .ok L →
      L = ⟨sl⟩ ∧ L.Invariant) ∧
    (∀ sl : List (List TierLayout),
      ¬(sl = [] ∨ (∃ s ∈ sl, s = []) ∨ ∃ s₁ ∈ sl, ∃ s₂ ∈ sl, s₁.length ≠ s₂.length) →
      ChipletLayout.make sl = .ok ⟨sl⟩) ∧
    ((do let t ← mkTierLayout 0 3 0 0; ChipletLayout.make [[t]]) =
      (.error .valueError : Except Err ChipletLayout)) ∧
    ChipletLayout.make [] = .error .valueError := by
  have hok : ∀ sl : List (List TierLayout),
      ChipletLayout.make sl = .ok ⟨sl⟩ ↔
        sl ≠ [] ∧ (∀ s ∈ sl, s ≠ []) ∧ ∀ s ∈ sl, s.length = (sl.headD []).length := by
    intro sl
    unfold ChipletLayout.make
    split_ifs with h1 h2 h3
    · refine iff_of_false (by simp) ?_
      rintro ⟨hne, -, -⟩
      exact hne (by simpa using h1)
    · refine iff_of_false (by simp) ?_
      rintro ⟨-, hnoe, -⟩
      rw [List.any_eq_true] at h2
      obtain ⟨s, hs, hse⟩ := h2
      exact hnoe s hs (by simpa using hse)
    · refine iff_of_true rfl ⟨?_, ?_, ?_⟩
      · simpa using h1
      · intro s hs hnil
        rw [List.any_eq_true] at h2
        exact h2 ⟨s, hs, by simp [hnil]⟩
      · intro s hs
        simpa using (List.all_eq_true.mp h3) s hs
    · refine iff_of_false (by simp) ?_
      rintro ⟨-, -, hlen⟩
      exact h3 (List.all_eq_true.mpr fun s hs => by simpa using hlen s hs)
  have hcases : ∀ sl : List (List TierLayout),
      ChipletLayout.make sl = .ok ⟨sl⟩ ∨ ChipletLayout.make sl = .error .valueError := by
    intro sl
    unfold ChipletLayout.make
    split_ifs <;> simp
  have hcond : ∀ sl : List (List TierLayout),
      (sl ≠ [] ∧ (∀ s ∈ sl, s ≠ []) ∧ ∀ s ∈ sl, s.length = (sl.headD []).length) ↔
        ¬(sl = [] ∨ (∃ s ∈ sl, s = []) ∨ ∃ s₁ ∈ sl, ∃ s₂ ∈ sl, s₁.length ≠ s₂.length) := by
    intro sl
    constructor
    · rintro ⟨hne, hnoe, hlen⟩ (h | ⟨s, hs, hse⟩ | ⟨s₁, hs₁, s₂, hs₂, hmm⟩)
      · exact hne h
      · exact hnoe s hs hse
      · exact hmm ((hlen s₁ hs₁).trans (hlen s₂ hs₂).symm)
    · intro h
      push_neg at h
      obtain ⟨hne, hnoe, hlen⟩ := h
      refine ⟨hne, hnoe, fun s hs => hlen s hs (sl.headD []) ?_⟩
      rcases sl with _ | ⟨a, l⟩
      · exact absurd rfl hne
      · simp
  have herr : ∀ sl : List (List TierLayout),
      ChipletLayout.make sl = .error .valueError ↔
        sl = [] ∨ (∃ s ∈ sl, s = []) ∨ ∃ s₁ ∈ sl, ∃ s₂ ∈ sl, s₁.length ≠ s₂.length := by
    intro sl
    constructor
    · intro h
      by_contra hc
      rw [← hcond sl] at hc
      rw [(hok sl).mpr hc] at h
      exact absurd h (by simp)
    · intro h
      rcases hcases sl with hc | hc
      · rw [hok sl, hcond sl] at hc
        exact absurd h hc
      · exact hc
  refine ⟨herr, ?_, ?_, by decide, by decide⟩
  · intro sl L h
    rcases hcases sl with hc | hc
    · rw [hc] at h
      injection h with h
      subst h
      obtain ⟨hne, hnoe, hlen⟩ := (hok sl).mp hc
      exact ⟨rfl, hne, fun s hs => ⟨hnoe s hs, hlen s hs⟩⟩
    · rw [hc] at h
      exact absurd h (by simp)
  · intro sl h
    rw [← hcond sl] at h
    exact (hok sl).mpr h

/-- Witness for C4: a concrete successful construction with its
successful construction with its invariant, via the theorem. -/
theorem make_validation_spec_witness :
    sampleLayout = ⟨[[sampleTier]]⟩ ∧ sampleLayout.Invariant :=
  make_validation_spec.2.1 [[sampleTier]] sampleLayout (by decide)

theorem except_error_bind {ε α β : Type} (e2 : ε) (f : α → Except ε β) :
    ((Except.error e2 : Except ε α) >>= f) = .error e2 := rfl

theorem except_ok_bind {ε α β : Type} (a : α) (f : α → Except ε β) :
    ((Except.ok a : Except ε α) >>= f) = f a := rfl

theorem except_bind_error {ε α β : Type} (x : Except ε α) (f : α → Except ε β)
    (e : ε) (h : (x >>= f) = .error e) :
    x = .error e ∨ ∃ a, x = .ok a ∧ f a = .error e := by
  cases x with
  | error e2 =>
    rw [except_error_bind] at h
    injection h with h
    exact Or.inl (by rw [h])
  | ok a =>
    rw [except_ok_bind] at h
    exact Or.inr ⟨a, rfl, h⟩

theorem pyIdx_error_iff {α : Type} (l : List α) (i : Int) :
    pyIdx l i = .error .indexError ↔ i < -(l.length : Int) ∨ (l.length : Int) ≤ i := by
  unfold pyIdx pyResolve
  by_cases hneg : i < 0 <;>
    simp only [if_pos, if_neg, hneg, ite_true, ite_false] <;>
    split_ifs with h <;>
    first
      | exact iff_of_false (by simp) (by omega)
      | exact iff_of_true rfl (by omega)

theorem pyIdx_error_kind {α : Type} (l : List α) (i : Int) (e : Err)
    (h : pyIdx l i = .error e) : e = .indexError := by
  unfold pyIdx at h
  split_ifs at h
  all_goals
    first
      | exact Except.noConfusion h
      | (injection h with h; exact h.symm)

theorem pyIdx_neg_shift {α : Type} (l : List α) (i : Int) (h1 : i < 0)
    (h2 : -(l.length : Int) ≤ i) : pyIdx l i = pyIdx l (i + l.length) := by
  have hres : pyResolve l.length (i + l.length) = pyResolve l.length i := by
    unfold pyResolve
    split_ifs <;> omega
  unfold pyIdx
  simp only [hres]

theorem pyIdx_ok_of_nonneg {α : Type} (l : List α) (i : Int)
    (h : i.toNat < l.length) (h0 : 0 ≤ i) :
    pyIdx l i = .ok (l.get ⟨i.toNat, h⟩) := by
  have hres : pyResolve l.length i = i := by
    unfold pyResolve
    split_ifs <;> omega
  unfold pyIdx
  simp only [hres]
  rw [dif_pos ⟨h0, h⟩]

/-- C8 (amended): the index-taking accessors resolve both the stack
index and the tier index with Python list semantics: an access fails
with a bounds error exactly when the index is outside `[-count, count)`
(negative indices count from the end); a nonnegative in-range index
returns the corresponding element of the underlying sequences; a
negative in-range stack or tier index behaves as `index + count`; the
bounds error is the only error the accessors raise; and the derived
accessors are the tier projections. -/
theorem accessor_bounds_amended (L : ChipletLayout) (si ti : Int) :
    (L.stackE si = .error .indexError ↔
      si < -(L.stack_count : Int) ∨ (L.stack_count : Int) ≤ si) ∧
    (∀ e, L.stackE si = .error e → e = .indexError) ∧
    (si < 0 → -(L.stack_count : Int) ≤ si → L.stackE si = L.stackE (si + L.stack_count)) ∧
    (∀ h : si.toNat < L.stackList.length, 0 ≤ si →
      L.stackE si = .ok (L.stackList.get ⟨si.toNat, h⟩)) ∧
    (∀ s, L.stackE si = .ok s →
      (L.tierE si ti = .error .indexError ↔
        ti < -(s.length : Int) ∨ (s.length : Int) ≤ ti) ∧
      (∀ h : ti.toNat < s.length, 0 ≤ ti →
        L.tierE si ti = .ok (s.get ⟨ti.toNat, h⟩)) ∧
      (ti < 0 → -(s.length : Int) ≤ ti →
        L.tierE si ti = L.tierE si (ti + s.length))) ∧
    (L.stackE si = .error .indexError → L.tierE si ti = .error .indexError) ∧
    (∀ e, L.tierE si ti = .error e → e = .indexError) ∧
    (L.tier_capacityE si ti = (L.tierE si ti).map TierLayout.capacity ∧
      L.tier_shapeE si ti = (L.tierE si ti).map (fun t => (t.rows, t.cols)) ∧
      L.tier_originE si ti = (L.tierE si ti).map (fun t => (t.origin_row, t.origin_col))) := by
  refine ⟨pyIdx_error_iff L.stackList si, fun e => pyIdx_error_kind L.stackList si e,
    pyIdx_neg_shift L.stackList si, fun h h0 => pyIdx_ok_of_nonneg L.stackList si h h0,
    ?_, ?_, ?_, rfl, rfl, rfl⟩
  · intro s hs
    have htier : ∀ tj : Int, L.tierE si tj = pyIdx s tj := by
      intro tj
      unfold ChipletLayout.tierE
      unfold ChipletLayout.stackE at hs
      rw [hs]
      rfl
    refine ⟨htier ti ▸ pyIdx_error_iff s ti,
      fun h h0 => htier ti ▸ pyIdx_ok_of_nonneg s ti h h0, ?_⟩
    intro h1 h2
    rw [htier ti, htier (ti + s.length)]
    exact pyIdx_neg_shift s ti h1 h2
  · intro hs
    unfold ChipletLayout.tierE
    unfold ChipletLayout.stackE at hs
    rw [hs]
    rfl
  · intro e h
    unfold ChipletLayout.tierE at h
    rcases except_bind_error _ _ _ h with h1 | ⟨s, h1, h2⟩
    · exact pyIdx_error_kind _ _ _ h1
    · exact pyIdx_error_kind _ _ _ h2

/-- Witness for the amended C8 theorem at a concrete layout and
indices, including the negative in-range shift for both the stack and
the tier index. -/
theorem accessor_bounds_amended_witness :
    (sampleLayout.stackE 5 = .error .indexError ↔
      (5 : Int) < -(sampleLayout.stack_count : Int) ∨
        (sampleLayout.stack_count : Int) ≤ 5) ∧
    sampleLayout.stackE (-1) = sampleLayout.stackE (-1 + sampleLayout.stack_count) ∧
    sampleLayout.tierE 0 (-1) =
      sampleLayout.tierE 0 (-1 + ([sampleTier] : List TierLayout).length) :=
  ⟨(accessor_bounds_amended sampleLayout 5 0).1,
    (accessor_bounds_amended sampleLayout (-1) 0).2.2.1 (by decide) (by decide),
    ((accessor_bounds_amended sampleLayout 0 (-1)).2.2.2.2.1 [sampleTier]
      (by decide)).2.2 (by decide) (by decide)⟩

/-- C8 counterexample: the claim says every negative index fails with a
bounds error, but Python list indexing accepts negative indices taken
from the end: on the one-stack, one-tier `sampleLayout`, index
`(-1, -1)` succeeds and returns the tier. -/
theorem negative_index_counterexample :
    sampleLayout.tierE (-1) (-1) = .ok sampleTier ∧
    sampleLayout.tierE (-1) (-1) ≠ .error .indexError ∧
    sampleLayout.stackE (-1) = .ok [sampleTier] ∧
    sampleLayout.tier_capacityE (-1) (-1) = .ok 9 := by
  refine ⟨?_, ?_, ?_, ?_⟩ <;> decide

theorem posCore_eq_specPosition (t : TierLayout) (hv : t.Valid) (serp mir : Bool)
    (i : Int) :
    posCore t serp mir i =
      specPosition t.rows t.cols t.origin_row t.origin_col serp mir i := by
  obtain ⟨hr, hc⟩ := hv
  unfold posCore specPosition
  dsimp only
  rw [Int.fdiv_eq_ediv i hc.le, Int.fmod_eq_emod i hc.le,
    Int.fmod_eq_emod (i / t.cols) (by norm_num : (0 : Int) ≤ 2)]
  have e1 : ∀ x : Int, t.cols - x - 1 = t.cols - 1 - x := fun x => by ring
  have e2 : ∀ x : Int, t.rows - x - 1 = t.rows - 1 - x := fun x => by ring
  simp only [e1, e2]

theorem posCore_mem (t : TierLayout) (hv : t.Valid) (serp mir : Bool) (i : Int)
    (h0 : 0 ≤ i) (h1 : i < t.capacity) :
    ∃ r c : Int, posCore t serp mir i = (t.origin_row + r, t.origin_col + c) ∧
      0 ≤ r ∧ r < t.rows ∧ 0 ≤ c ∧ c < t.cols := by
  obtain ⟨hr, hc⟩ := hv
  have hq0 : 0 ≤ i / t.cols := Int.ediv_nonneg h0 hc.le
  have hqlt : i / t.cols < t.rows := by
    rw [Int.ediv_lt_iff_lt_mul hc]
    exact h1
  have hm0 : 0 ≤ i % t.cols := Int.emod_nonneg i (ne_of_gt hc)
  have hmlt : i % t.cols < t.cols := Int.emod_lt_of_pos i hc
  unfold posCore
  dsimp only
  rw [Int.fdiv_eq_ediv i hc.le, Int.fmod_eq_emod i hc.le]
  set q := i / t.cols
  set r := i % t.cols
  by_cases hs : (serp && Int.fmod q 2 == 1) = true <;>
    cases mir <;>
      simp only [hs, if_true, if_false, Bool.false_eq_true, ite_true, ite_false,
        Bool.not_eq_true] <;>
      exact ⟨_, _, rfl, by omega, by omega, by omega, by omega⟩

theorem posCore_leftInv (t : TierLayout) (hv : t.Valid) (serp mir : Bool) (i : Int)
    (h0 : 0 ≤ i) (h1 : i < t.capacity) :
    posCoreInv t serp mir (posCore t serp mir i) = i := by
  obtain ⟨hr, hc⟩ := hv
  have hkey : t.cols * (i / t.cols) + i % t.cols = i := Int.ediv_add_emod i t.cols
  have hq0 : 0 ≤ i / t.cols := Int.ediv_nonneg h0 hc.le
  have hqlt : i / t.cols < t.rows := by
    rw [Int.ediv_lt_iff_lt_mul hc]
    exact h1
  have hm0 : 0 ≤ i % t.cols := Int.emod_nonneg i (ne_of_gt hc)
  have hmlt : i % t.cols < t.cols := Int.emod_lt_of_pos i hc
  unfold posCore posCoreInv
  dsimp only
  rw [Int.fdiv_eq_ediv i hc.le, Int.fmod_eq_emod i hc.le]
  set q := i / t.cols
  set r := i % t.cols
  cases mir <;>
    simp only [Bool.false_eq_true, ite_true, ite_false, if_true, if_false,
      add_sub_cancel_left]
  · by_cases hs : (serp && Int.fmod q 2 == 1) = true <;>
      simp only [hs, ite_true, ite_false, Bool.false_eq_true] <;>
      [(rw [show t.cols - (t.cols - r - 1) - 1 = r from by ring];
        linear_combination hkey);
       linear_combination hkey]
  · rw [show t.rows - (t.rows - q - 1) - 1 = q from by ring]
    by_cases hs : (serp && Int.fmod q 2 == 1) = true <;>
      simp only [hs, ite_true, ite_false, Bool.false_eq_true]
    · rw [show t.cols - (t.cols - (t.cols - r - 1) - 1) - 1 = t.cols - r - 1 from by ring,
        show t.cols - (t.cols - r - 1) - 1 = r from by ring]
      linear_combination hkey
    · rw [show t.cols - (t.cols - r - 1) - 1 = r from by ring]
      linear_combination hkey

theorem raster_roundtrip (t : TierLayout) (hv : t.Valid) (R C : Int)
    (hR0 : 0 ≤ R) (hR1 : R < t.rows) (hC0 : 0 ≤ C) (hC1 : C < t.cols) :
    0 ≤ R * t.cols + C ∧ R * t.cols + C < t.capacity ∧
    (R * t.cols + C) / t.cols = R ∧ (R * t.cols + C) % t.cols = C := by
  obtain ⟨hr, hc⟩ := hv
  refine ⟨add_nonneg (mul_nonneg hR0 hc.le) hC0, ?_, ?_, ?_⟩
  · have h2 : R * t.cols ≤ (t.rows - 1) * t.cols :=
      mul_le_mul_of_nonneg_right (by omega) hc.le
    have h3 : (t.rows - 1) * t.cols = t.rows * t.cols - t.cols := by ring
    show R * t.cols + C < t.rows * t.cols
    linarith
  · rw [add_comm, Int.add_mul_ediv_right C R (ne_of_gt hc),
      Int.ediv_eq_zero_of_lt hC0 hC1]
    ring
  · rw [add_comm, Int.add_mul_emod_self, Int.emod_eq_of_lt hC0 hC1]

theorem posCore_rightInv (t : TierLayout) (hv : t.Valid) (serp mir : Bool) (r c : Int)
    (hr0 : 0 ≤ r) (hr1 : r < t.rows) (hc0 : 0 ≤ c) (hc1 : c < t.cols) :
    0 ≤ posCoreInv t serp mir (t.origin_row + r, t.origin_col + c) ∧
    posCoreInv t serp mir (t.origin_row + r, t.origin_col + c) < t.capacity ∧
    posCore t serp mir (posCoreInv t serp mir (t.origin_row + r, t.origin_col + c)) =
      (t.origin_row + r, t.origin_col + c) := by
  obtain ⟨hr, hc⟩ := hv
  unfold posCoreInv
  dsimp only
  simp only [add_sub_cancel_left]
  cases mir <;>
    simp only [Bool.false_eq_true, ite_true, ite_false, if_true, if_false]
  · by_cases hs : (serp && Int.fmod r 2 == 1) = true <;>
      simp only [hs, ite_true, ite_false, Bool.false_eq_true]
    · obtain ⟨p1, p2, p3, p4⟩ :=
        raster_roundtrip t ⟨hr, hc⟩ r (t.cols - c - 1) hr0 hr1 (by omega) (by omega)
      refine ⟨p1, p2, ?_⟩
      unfold posCore
      dsimp only
      rw [Int.fdiv_eq_ediv _ hc.le, Int.fmod_eq_emod _ hc.le, p3, p4]
      simp only [hs, ite_true, ite_false, Bool.false_eq_true, if_true, if_false,
        Prod.mk.injEq]
      all_goals first
        | (constructor <;> ring)
        | ring
    · obtain ⟨p1, p2, p3, p4⟩ :=
        raster_roundtrip t ⟨hr, hc⟩ r c hr0 hr1 hc0 hc1
      refine ⟨p1, p2, ?_⟩
      unfold posCore
      dsimp only
      rw [Int.fdiv_eq_ediv _ hc.le, Int.fmod_eq_emod _ hc.le, p3, p4]
      simp only [hs, ite_true, ite_false, Bool.false_eq_true, if_true, if_false,
        Prod.mk.injEq]
      all_goals first
        | (constructor <;> ring)
        | ring
  · by_cases hs : (serp && Int.fmod (t.rows - r - 1) 2 == 1) = true <;>
      simp only [hs, ite_true, ite_false, Bool.false_eq_true]
    · obtain ⟨p1, p2, p3, p4⟩ :=
        raster_roundtrip t ⟨hr, hc⟩ (t.rows - r - 1) (t.cols - (t.cols - c - 1) - 1)
          (by omega) (by omega) (by omega) (by omega)
      refine ⟨p1, p2, ?_⟩
      unfold posCore
      dsimp only
      rw [Int.fdiv_eq_ediv _ hc.le, Int.fmod_eq_emod _ hc.le, p3, p4]
      simp only [hs, ite_true, ite_false, Bool.false_eq_true, if_true, if_false,
        Prod.mk.injEq]
      all_goals first
        | (constructor <;> ring)
        | ring
    · obtain ⟨p1, p2, p3, p4⟩ :=
        raster_roundtrip t ⟨hr, hc⟩ (t.rows - r - 1) (t.cols - c - 1)
          (by omega) (by omega) (by omega) (by omega)
      refine ⟨p1, p2, ?_⟩
      unfold posCore
      dsimp only
      rw [Int.fdiv_eq_ediv _ hc.le, Int.fmod_eq_emod _ hc.le, p3, p4]
      simp only [hs, ite_true, ite_false, Bool.false_eq_true, if_true, if_false,
        Prod.mk.injEq]
      all_goals first
        | (constructor <;> ring)
        | ring

theorem pfi_ok_tier (L : ChipletLayout) (si ti : Int) (t : TierLayout)
    (serp mir : Bool) (i : Int) (ht : L.tierE si ti = .ok t) :
    L.position_from_index si ti i serp mir =
      if i < 0 ∨ t.capacity ≤ i then .error .indexError
      else .ok (posCore t serp mir i) := by
  unfold ChipletLayout.position_from_index
  rw [ht]
  rfl

theorem pfi_err_tier (L : ChipletLayout) (si ti : Int) (e : Err)
    (serp mir : Bool) (i : Int) (ht : L.tierE si ti = .error e) :
    L.position_from_index si ti i serp mir = .error e := by
  unfold ChipletLayout.position_from_index
  rw [ht]
  rfl

/-- C1: at a valid tier, `position_from_index` raises a bounds error
when `tile_index < 0` or `tile_index >= rows * cols`, and otherwise
returns exactly the spec formula: raster position, serpentine reversal
of odd rows, mirror 180-degree rotation applied after serpentine, and
translation by the origin. -/
theorem position_from_index_spec (L : ChipletLayout) (si ti : Int) (t : TierLayout)
    (ht : L.tierE si ti = .ok t) (hv : t.Valid) (serp mir : Bool) (i : Int) :
    ((i < 0 ∨ t.capacity ≤ i) →
      L.position_from_index si ti i serp mir = .error .indexError) ∧
    (0 ≤ i → i < t.capacity →
      L.position_from_index si ti i serp mir =
        .ok (specPosition t.rows t.cols t.origin_row t.origin_col serp mir i)) := by
  constructor
  · intro hout
    rw [pfi_ok_tier L si ti t serp mir i ht, if_pos hout]
  · intro h0 h1
    rw [pfi_ok_tier L si ti t serp mir i ht,
      if_neg (not_or.mpr ⟨Int.not_lt.mpr h0, Int.not_le.mpr h1⟩),
      posCore_eq_specPosition t hv serp mir i]

/-- Witness for C1: the three worked 3x3 scenarios of the spec through the
theorem. -/
theorem position_from_index_spec_witness :
    (sampleLayout.position_from_index 0 0 4 false false =
      .ok (specPosition sampleTier.rows sampleTier.cols sampleTier.origin_row
        sampleTier.origin_col false false 4) ∧
      specPosition sampleTier.rows sampleTier.cols sampleTier.origin_row
        sampleTier.origin_col false false 4 = (1, 1)) ∧
    (sampleLayout.position_from_index 0 0 5 true false =
      .ok (specPosition sampleTier.rows sampleTier.cols sampleTier.origin_row
        sampleTier.origin_col true false 5) ∧
      specPosition sampleTier.rows sampleTier.cols sampleTier.origin_row
        sampleTier.origin_col true false 5 = (1, 0)) ∧
    (sampleLayout.position_from_index 0 0 0 false true =
      .ok (specPosition sampleTier.rows sampleTier.cols sampleTier.origin_row
        sampleTier.origin_col false true 0) ∧
      specPosition sampleTier.rows sampleTier.cols sampleTier.origin_row
        sampleTier.origin_col false true 0 = (2, 2)) ∧
    sampleLayout.position_from_index 0 0 9 false false = .error .indexError :=
  ⟨⟨(position_from_index_spec sampleLayout 0 0 sampleTier (by decide) (by decide)
      false false 4).2 (by decide) (by decide), by decide⟩,
   ⟨(position_from_index_spec sampleLayout 0 0 sampleTier (by decide) (by decide)
      true false 5).2 (by decide) (by decide), by decide⟩,
   ⟨(position_from_index_spec sampleLayout 0 0 sampleTier (by decide) (by decide)
      false true 0).2 (by decide) (by decide), by decide⟩,
   (position_from_index_spec sampleLayout 0 0 sampleTier (by decide) (by decide)
      false false 9).1 (by decide)⟩

/-- C2: for every fixed `(serpentine, mirror)` pair, the addressing map
restricted to `[0, capacity)` is injective, lands in the cell
set, and reaches every cell of the tier: a bijection onto
`{(origin_row + r, origin_col + c) | 0 <= r < rows, 0 <= c < cols}`. -/
theorem position_from_index_bijective (L : ChipletLayout) (si ti : Int)
    (t : TierLayout) (ht : L.tierE si ti = .ok t) (hv : t.Valid)
    (serp mir : Bool) :
    (∀ i j : Int, 0 ≤ i → i < t.capacity → 0 ≤ j → j < t.capacity →
      L.position_from_index si ti i serp mir =
        L.position_from_index si ti j serp mir → i = j) ∧
    (∀ i : Int, 0 ≤ i → i < t.capacity → ∃ r c : Int,
      0 ≤ r ∧ r < t.rows ∧ 0 ≤ c ∧ c < t.cols ∧
      L.position_from_index si ti i serp mir =
        .ok (t.origin_row + r, t.origin_col + c)) ∧
    (∀ r c : Int, 0 ≤ r → r < t.rows → 0 ≤ c → c < t.cols →
      ∃ i : Int, 0 ≤ i ∧ i < t.capacity ∧
        L.position_from_index si ti i serp mir =
          .ok (t.origin_row + r, t.origin_col + c)) := by
  refine ⟨?_, ?_, ?_⟩
  · intro i j h0i h1i h0j h1j heq
    rw [pfi_ok_tier L si ti t serp mir i ht,
      if_neg (not_or.mpr ⟨Int.not_lt.mpr h0i, Int.not_le.mpr h1i⟩),
      pfi_ok_tier L si ti t serp mir j ht,
      if_neg (not_or.mpr ⟨Int.not_lt.mpr h0j, Int.not_le.mpr h1j⟩)] at heq
    injection heq with heq
    have h2 := congrArg (posCoreInv t serp mir) heq
    rwa [posCore_leftInv t hv serp mir i h0i h1i,
      posCore_leftInv t hv serp mir j h0j h1j] at h2
  · intro i h0 h1
    obtain ⟨r, c, hpc, hr0, hr1, hc0, hc1⟩ := posCore_mem t hv serp mir i h0 h1
    refine ⟨r, c, hr0, hr1, hc0, hc1, ?_⟩
    rw [pfi_ok_tier L si ti t serp mir i ht,
      if_neg (not_or.mpr ⟨Int.not_lt.mpr h0, Int.not_le.mpr h1⟩), hpc]
  · intro r c hr0 hr1 hc0 hc1
    obtain ⟨p1, p2, p3⟩ := posCore_rightInv t hv serp mir r c hr0 hr1 hc0 hc1
    refine ⟨posCoreInv t serp mir (t.origin_row + r, t.origin_col + c), p1, p2, ?_⟩
    rw [pfi_ok_tier L si ti t serp mir _ ht,
      if_neg (not_or.mpr ⟨Int.not_lt.mpr p1, Int.not_le.mpr p2⟩), p3]

/-- Witness for C2 on the 3x3 sample tier with both flags set. -/
theorem position_from_index_bijective_witness :
    ∃ i : Int, 0 ≤ i ∧ i < sampleTier.capacity ∧
      sampleLayout.position_from_index 0 0 i true true =
        .ok (sampleTier.origin_row + 2, sampleTier.origin_col + 2) :=
  (position_from_index_bijective sampleLayout 0 0 sampleTier (by decide) (by decide)
    true true).2.2 2 2 (by decide) (by decide) (by decide) (by decide)

theorem posCore_mirror_reverse (t : TierLayout) (hv : t.Valid) (i : Int)
    (h0 : 0 ≤ i) (h1 : i < t.capacity) :
    posCore t false true i = posCore t false false (t.capacity - 1 - i) := by
  obtain ⟨hr, hc⟩ := hv
  have hkey : t.cols * (i / t.cols) + i % t.cols = i := Int.ediv_add_emod i t.cols
  have hq0 : 0 ≤ i / t.cols := Int.ediv_nonneg h0 hc.le
  have hqlt : i / t.cols < t.rows := by
    rw [Int.ediv_lt_iff_lt_mul hc]
    exact h1
  have hm0 : 0 ≤ i % t.cols := Int.emod_nonneg i (ne_of_gt hc)
  have hmlt : i % t.cols < t.cols := Int.emod_lt_of_pos i hc
  obtain ⟨p1, p2, p3, p4⟩ :=
    raster_roundtrip t ⟨hr, hc⟩ (t.rows - 1 - i / t.cols) (t.cols - 1 - i % t.cols)
      (by omega) (by omega) (by omega) (by omega)
  have harg : t.capacity - 1 - i =
      (t.rows - 1 - i / t.cols) * t.cols + (t.cols - 1 - i % t.cols) := by
    show t.rows * t.cols - 1 - i = _
    linear_combination hkey
  rw [harg]
  unfold posCore
  dsimp only
  rw [Int.fdiv_eq_ediv i hc.le, Int.fmod_eq_emod i hc.le,
    Int.fdiv_eq_ediv _ hc.le, Int.fmod_eq_emod _ hc.le, p3, p4]
  simp only [Bool.false_and, Bool.false_eq_true, ite_false, if_false, ite_true,
    if_true, Prod.mk.injEq]
  constructor <;> ring

/-- C10: without serpentine, mirror addressing traverses the tier in
exactly the reverse of plain raster order: index `i` with mirror equals
index `capacity - 1 - i` without it. -/
theorem mirror_reverses_raster (L : ChipletLayout) (si ti : Int) (t : TierLayout)
    (ht : L.tierE si ti = .ok t) (hv : t.Valid) (i : Int) (h0 : 0 ≤ i)
    (h1 : i < t.capacity) :
    L.position_from_index si ti i false true =
      L.position_from_index si ti (t.capacity - 1 - i) false false := by
  rw [pfi_ok_tier L si ti t false true i ht,
    if_neg (not_or.mpr ⟨Int.not_lt.mpr h0, Int.not_le.mpr h1⟩),
    pfi_ok_tier L si ti t false false _ ht,
    if_neg (not_or.mpr ⟨Int.not_lt.mpr (by omega), Int.not_le.mpr (by omega)⟩)]
  rw [posCore_mirror_reverse t hv i h0 h1]

/-- Witness for C10 on the 3x3 sample tier at index 0. -/
theorem mirror_reverses_raster_witness :
    sampleLayout.position_from_index 0 0 0 false true =
      sampleLayout.position_from_index 0 0 (sampleTier.capacity - 1 - 0) false false :=
  mirror_reverses_raster sampleLayout 0 0 sampleTier (by decide) (by decide) 0
    (by decide) (by decide)

theorem make_ok_of_wf (sl : List (List TierLayout)) (h1 : sl ≠ [])
    (h2 : ∀ s ∈ sl, s ≠ [])
    (h3 : ∀ s ∈ sl, s.length = (sl.headD []).length) :
    ChipletLayout.make sl = .ok ⟨sl⟩ := by
  unfold ChipletLayout.make
  rw [if_neg (by simpa using h1), if_neg ?_, if_pos ?_]
  · exact List.all_eq_true.mpr fun s hs => by simpa using h3 s hs
  · rw [List.any_eq_true]
    rintro ⟨s, hs, hse⟩
    exact h2 s hs (by simpa using hse)

theorem foldl_min_le_init {α : Type} (f : α → Int) (l : List α) (a : Int) :
    l.foldl (fun m x => min m (f x)) a ≤ a := by
  induction l generalizing a with
  | nil => simp
  | cons x xs ih =>
    simp only [List.foldl_cons]
    exact le_trans (ih (min a (f x))) (min_le_left a (f x))

theorem foldl_min_le_mem {α : Type} (f : α → Int) (l : List α) (a : Int) (x : α)
    (hx : x ∈ l) : l.foldl (fun m y => min m (f y)) a ≤ f x := by
  induction l generalizing a with
  | nil => cases hx
  | cons y ys ih =>
    simp only [List.foldl_cons]
    rcases List.mem_cons.mp hx with rfl | hmem
    · exact le_trans (foldl_min_le_init f ys (min a (f x))) (min_le_right a (f x))
    · exact ih (min a (f y)) hmem

theorem foldl_min_attained {α : Type} (f : α → Int) (l : List α) (a : Int) :
    l.foldl (fun m y => min m (f y)) a = a ∨
      ∃ x ∈ l, l.foldl (fun m y => min m (f y)) a = f x := by
  induction l generalizing a with
  | nil => exact Or.inl rfl
  | cons y ys ih =>
    simp only [List.foldl_cons]
    rcases ih (min a (f y)) with h | ⟨x, hx, hfx⟩
    · rcases min_choice a (f y) with h2 | h2
      · exact Or.inl (by rw [h, h2])
      · exact Or.inr ⟨y, List.mem_cons_self y ys, by rw [h, h2]⟩
    · exact Or.inr ⟨x, List.mem_cons_of_mem y hx, hfx⟩

theorem le_foldl_max_init {α : Type} (f : α → Int) (l : List α) (a : Int) :
    a ≤ l.foldl (fun m x => max m (f x)) a := by
  induction l generalizing a with
  | nil => simp
  | cons x xs ih =>
    simp only [List.foldl_cons]
    exact le_trans (le_max_left a (f x)) (ih (max a (f x)))

theorem le_foldl_max_mem {α : Type} (f : α → Int) (l : List α) (a : Int) (x : α)
    (hx : x ∈ l) : f x ≤ l.foldl (fun m y => max m (f y)) a := by
  induction l generalizing a with
  | nil => cases hx
  | cons y ys ih =>
    simp only [List.foldl_cons]
    rcases List.mem_cons.mp hx with rfl | hmem
    · exact le_trans (le_max_right a (f x)) (le_foldl_max_init f ys (max a (f x)))
    · exact ih (max a (f y)) hmem

theorem foldl_max_attained {α : Type} (f : α → Int) (l : List α) (a : Int) :
    l.foldl (fun m y => max m (f y)) a = a ∨
      ∃ x ∈ l, l.foldl (fun m y => max m (f y)) a = f x := by
  induction l generalizing a with
  | nil => exact Or.inl rfl
  | cons y ys ih =>
    simp only [List.foldl_cons]
    rcases ih (max a (f y)) with h | ⟨x, hx, hfx⟩
    · rcases max_choice a (f y) with h2 | h2
      · exact Or.inl (by rw [h, h2])
      · exact Or.inr ⟨y, List.mem_cons_self y ys, by rw [h, h2]⟩
    · exact Or.inr ⟨x, List.mem_cons_of_mem y hx, hfx⟩

/-- C6: on every layout satisfying the construction invariant (with its
tiers valid, as every Python `TierLayout` is), `global_shape` is
`(joint_max_row - joint_min_row, joint_max_col - joint_min_col)` for the
component-wise extremes over all tiers: the box contains, for every
tier, the origin and origin + extent, each extreme is attained by some tier, and
both components are strictly positive, so `global_shape` never returns
`(0, 0)` on a constructed layout. -/
theorem global_shape_spec (L : ChipletLayout) (hI : L.Invariant)
    (hT : L.ValidTiers) :
    ∃ min_row min_col max_row max_col : Int,
      L.global_shape = (max_row - min_row, max_col - min_col) ∧
      (∀ t ∈ L.allTiers, min_row ≤ t.origin_row ∧ t.origin_row + t.rows ≤ max_row ∧
        min_col ≤ t.origin_col ∧ t.origin_col + t.cols ≤ max_col) ∧
      (∃ t ∈ L.allTiers, t.origin_row = min_row) ∧
      (∃ t ∈ L.allTiers, t.origin_row + t.rows = max_row) ∧
      (∃ t ∈ L.allTiers, t.origin_col = min_col) ∧
      (∃ t ∈ L.allTiers, t.origin_col + t.cols = max_col) ∧
      0 < max_row - min_row ∧ 0 < max_col - min_col ∧
      L.global_shape ≠ (0, 0) := by
  obtain ⟨hne, hstacks⟩ := hI
  have hTall : ∀ t ∈ L.allTiers, t.Valid := by
    intro t htm
    unfold ChipletLayout.allTiers at htm
    rw [List.mem_flatten] at htm
    obtain ⟨s, hsmem, htins⟩ := htm
    exact hT s hsmem t htins
  cases hL : L.stackList with
  | nil => exact absurd hL hne
  | cons s0 rest =>
    have hs0 := hstacks s0 (by rw [hL]; exact List.mem_cons_self s0 rest)
    cases hs0h : s0 with
    | nil => exact absurd hs0h hs0.1
    | cons t0 ts0 =>
      have hall : L.allTiers = t0 :: (ts0 ++ rest.flatten) := by
        unfold ChipletLayout.allTiers
        rw [hL, hs0h]
        simp
      have ht0mem : t0 ∈ L.allTiers := by
        rw [hall]
        exact List.mem_cons_self _ _
      have ht0v : t0.Valid := hTall t0 ht0mem
      set tail : List TierLayout := ts0 ++ rest.flatten with htail
      set minR := tail.foldl (fun m x => min m x.origin_row) t0.origin_row with hminR
      set minC := tail.foldl (fun m x => min m x.origin_col) t0.origin_col with hminC
      set maxR := tail.foldl (fun m x => max m (x.origin_row + x.rows))
        (t0.origin_row + t0.rows) with hmaxR
      set maxC := tail.foldl (fun m x => max m (x.origin_col + x.cols))
        (t0.origin_col + t0.cols) with hmaxC
      have hgs : L.global_shape = (maxR - minR, maxC - minC) := by
        unfold ChipletLayout.global_shape
        rw [hall]
      have hcont : ∀ t ∈ L.allTiers, minR ≤ t.origin_row ∧
          t.origin_row + t.rows ≤ maxR ∧ minC ≤ t.origin_col ∧
          t.origin_col + t.cols ≤ maxC := by
        intro t htm
        rw [hall] at htm
        rcases List.mem_cons.mp htm with rfl | hmem
        · exact ⟨foldl_min_le_init _ tail _, le_foldl_max_init _ tail _,
            foldl_min_le_init _ tail _, le_foldl_max_init _ tail _⟩
        · exact ⟨foldl_min_le_mem (fun x => x.origin_row) tail _ t hmem,
            le_foldl_max_mem (fun x => x.origin_row + x.rows) tail _ t hmem,
            foldl_min_le_mem (fun x => x.origin_col) tail _ t hmem,
            le_foldl_max_mem (fun x => x.origin_col + x.cols) tail _ t hmem⟩
      have htailmem : ∀ x ∈ tail, x ∈ L.allTiers := by
        intro x hx
        rw [hall]
        exact List.mem_cons_of_mem _ hx
      have hat1 : ∃ t ∈ L.allTiers, t.origin_row = minR := by
        rcases foldl_min_attained (fun x => x.origin_row) tail t0.origin_row with
          h | ⟨x, hx, hfx⟩
        · exact ⟨t0, ht0mem, h.symm⟩
        · exact ⟨x, htailmem x hx, hfx.symm⟩
      have hat2 : ∃ t ∈ L.allTiers, t.origin_row + t.rows = maxR := by
        rcases foldl_max_attained (fun x => x.origin_row + x.rows) tail
            (t0.origin_row + t0.rows) with h | ⟨x, hx, hfx⟩
        · exact ⟨t0, ht0mem, h.symm⟩
        · exact ⟨x, htailmem x hx, hfx.symm⟩
      have hat3 : ∃ t ∈ L.allTiers, t.origin_col = minC := by
        rcases foldl_min_attained (fun x => x.origin_col) tail t0.origin_col with
          h | ⟨x, hx, hfx⟩
        · exact ⟨t0, ht0mem, h.symm⟩
        · exact ⟨x, htailmem x hx, hfx.symm⟩
      have hat4 : ∃ t ∈ L.allTiers, t.origin_col + t.cols = maxC := by
        rcases foldl_max_attained (fun x => x.origin_col + x.cols) tail
            (t0.origin_col + t0.cols) with h | ⟨x, hx, hfx⟩
        · exact ⟨t0, ht0mem, h.symm⟩
        · exact ⟨x, htailmem x hx, hfx.symm⟩
      have hc0 := hcont t0 ht0mem
      have hposR : 0 < maxR - minR := by
        have h1 := hc0.1
        have h2 := hc0.2.1
        have h3 := ht0v.1
        omega
      have hposC : 0 < maxC - minC := by
        have h1 := hc0.2.2.1
        have h2 := hc0.2.2.2
        have h3 := ht0v.2
        omega
      have hne00 : L.global_shape ≠ (0, 0) := by
        rw [hgs]
        simp only [ne_eq, Prod.mk.injEq, not_and]
        intro h1
        omega
      exact ⟨minR, minC, maxR, maxC, hgs, hcont, hat1, hat2, hat3, hat4,
        hposR, hposC, hne00⟩

/-- Witness for C6 at the concrete sample layout. -/
theorem global_shape_spec_witness :
    ∃ min_row min_col max_row max_col : Int,
      sampleLayout.global_shape = (max_row - min_row, max_col - min_col) ∧
      (∀ t ∈ sampleLayout.allTiers, min_row ≤ t.origin_row ∧
        t.origin_row + t.rows ≤ max_row ∧ min_col ≤ t.origin_col ∧
        t.origin_col + t.cols ≤ max_col) ∧
      (∃ t ∈ sampleLayout.allTiers, t.origin_row = min_row) ∧
      (∃ t ∈ sampleLayout.allTiers, t.origin_row + t.rows = max_row) ∧
      (∃ t ∈ sampleLayout.allTiers, t.origin_col = min_col) ∧
      (∃ t ∈ sampleLayout.allTiers, t.origin_col + t.cols = max_col) ∧
      0 < max_row - min_row ∧ 0 < max_col - min_col ∧
      sampleLayout.global_shape ≠ (0, 0) :=
  global_shape_spec sampleLayout (by decide) (by decide)

theorem parseTier_to_dict (t : TierLayout) (hv : t.Valid) :
    parseTier t.to_dict = .ok t := by
  obtain ⟨h1, h2⟩ := hv
  have hred : parseTier t.to_dict =
      mkTierLayout t.rows t.cols t.origin_row t.origin_col := rfl
  rw [hred]
  unfold mkTierLayout
  rw [if_neg (by omega : ¬(t.rows ≤ 0 ∨ t.cols ≤ 0))]

theorem mapM_parseTier_map (sl : List TierLayout) (hv : ∀ t ∈ sl, t.Valid) :
    (sl.map TierLayout.to_dict).mapM parseTier = .ok sl := by
  induction sl with
  | nil => rfl
  | cons t ts ih =>
    have hvt := hv t (List.mem_cons_self t ts)
    have hvts : ∀ x ∈ ts, x.Valid := fun x hx => hv x (List.mem_cons_of_mem t hx)
    rw [List.map_cons, List.mapM_cons, parseTier_to_dict t hvt, ih hvts]
    rfl

theorem parseStack_to_dict (sl : List TierLayout) (hv : ∀ t ∈ sl, t.Valid) :
    parseStack (.list (sl.map TierLayout.to_dict)) = .ok sl := by
  unfold parseStack
  dsimp only [asSequence]
  exact mapM_parseTier_map sl hv

theorem mapM_parseStack_map (sll : List (List TierLayout))
    (hv : ∀ s ∈ sll, ∀ t ∈ s, t.Valid) :
    (sll.map (fun s => PyVal.list (s.map TierLayout.to_dict))).mapM parseStack =
      .ok sll := by
  induction sll with
  | nil => rfl
  | cons s ss ih =>
    have hvs := hv s (List.mem_cons_self s ss)
    have hvss : ∀ x ∈ ss, ∀ t ∈ x, t.Valid :=
      fun x hx => hv x (List.mem_cons_of_mem s hx)
    rw [List.map_cons, List.mapM_cons, parseStack_to_dict s hvs, ih hvss]
    rfl

/-- C3: deserializing a serialized valid layout succeeds and reproduces
the layout exactly: same stacks in order, each tier field-for-field
equal. -/
theorem from_dict_to_dict_roundtrip (L : ChipletLayout) (hI : L.Invariant)
    (hT : L.ValidTiers) :
    ChipletLayout.from_dict L.to_dict = .ok L := by
  have hred : ChipletLayout.from_dict L.to_dict =
      ((L.stackList.map (fun s => PyVal.list (s.map TierLayout.to_dict))).mapM
        parseStack) >>= ChipletLayout.make := rfl
  rw [hred, mapM_parseStack_map L.stackList hT]
  show ChipletLayout.make L.stackList = .ok L
  rw [make_ok_of_wf L.stackList hI.1 (fun s hs => (hI.2 s hs).1)
    (fun s hs => (hI.2 s hs).2)]

/-- Witness for C3 at the concrete sample layout. -/
theorem from_dict_to_dict_roundtrip_witness :
    ChipletLayout.from_dict sampleLayout.to_dict = .ok sampleLayout :=
  from_dict_to_dict_roundtrip sampleLayout (by decide) (by decide)

/-- C7 counterexample: the claim says `from_dict` raises
`ValidationError` when a field value is not an integer, and that no
error of any other kind is raised for malformed input.  Both parts fail
on the code: `int(...)` coerces numeric strings, so string field values
`"2"`/`"3"` (not integers) are accepted and `from_dict` succeeds; and a
list-valued field makes `int(...)` raise `TypeError`, a different error
kind. -/
theorem from_dict_coercion_counterexample :
    ChipletLayout.from_dict
        [("stacks", .list [.list [.dict [("rows", .str "2"), ("cols", .str "3")]]])] =
      .ok ⟨[[⟨2, 3, 0, 0⟩]]⟩ ∧
    ChipletLayout.from_dict
        [("stacks", .list [.list [.dict [("rows", .list []), ("cols", .int 3)]]])] =
      .error .typeError := ⟨rfl, rfl⟩

theorem intCoerce_error_kind (v : PyVal) (e : Err) (h : intCoerce v = .error e) :
    e = .valueError ∨ e = .typeError := by
  cases v with
  | int n => exact Except.noConfusion h
  | str st =>
    simp only [intCoerce] at h
    cases hs : strToInt? st with
    | none =>
      rw [hs] at h
      injection h with h
      exact Or.inl h.symm
    | some n =>
      rw [hs] at h
      exact Except.noConfusion h
  | list xs =>
    injection h with h
    exact Or.inr h.symm
  | dict kvs =>
    injection h with h
    exact Or.inr h.symm

theorem mkTierLayout_error_kind (r c a b : Int) (e : Err)
    (h : mkTierLayout r c a b = .error e) : e = .valueError := by
  unfold mkTierLayout at h
  split_ifs at h
  all_goals
    first
      | exact Except.noConfusion h
      | (injection h with h; exact h.symm)

theorem fetchRequired_error_kind (kvs : List (String × PyVal)) (k : String)
    (e : Err) (h : fetchRequired kvs k = .error e) :
    e = .valueError ∨ e = .typeError := by
  unfold fetchRequired at h
  split at h
  · injection h with h
    exact Or.inl h.symm
  · exact intCoerce_error_kind _ e h

theorem parseTier_error_kind (v : PyVal) (e : Err) (h : parseTier v = .error e) :
    e = .valueError ∨ e = .typeError := by
  cases v with
  | int n => exact Or.inl (by injection h with h; exact h.symm)
  | str st => exact Or.inl (by injection h with h; exact h.symm)
  | list xs => exact Or.inl (by injection h with h; exact h.symm)
  | dict kvs =>
    unfold parseTier at h
    rcases except_bind_error _ _ _ h with h1 | ⟨rows, h1, h2⟩
    · exact fetchRequired_error_kind kvs "rows" e h1
    · rcases except_bind_error _ _ _ h2 with h3 | ⟨cols, h3, h4⟩
      · exact fetchRequired_error_kind kvs "cols" e h3
      · rcases except_bind_error _ _ _ h4 with h5 | ⟨orow, h5, h6⟩
        · exact intCoerce_error_kind _ e h5
        · rcases except_bind_error _ _ _ h6 with h7 | ⟨ocol, h7, h8⟩
          · exact intCoerce_error_kind _ e h7
          · exact Or.inl (mkTierLayout_error_kind _ _ _ _ e h8)

theorem mapM_error_kind {α β : Type} (g : α → Except Err β) (P : Err → Prop)
    (hg : ∀ x e, g x = .error e → P e) (l : List α) (e : Err)
    (h : l.mapM g = .error e) : P e := by
  induction l with
  | nil => exact Except.noConfusion h
  | cons x xs ih =>
    rw [List.mapM_cons] at h
    rcases except_bind_error _ _ _ h with h1 | ⟨a, h1, h2⟩
    · exact hg x e h1
    · rcases except_bind_error _ _ _ h2 with h3 | ⟨as, h3, h4⟩
      · exact ih h3
      · exact Except.noConfusion h4

theorem parseStack_error_kind (v : PyVal) (e : Err) (h : parseStack v = .error e) :
    e = .valueError ∨ e = .typeError := by
  unfold parseStack at h
  split at h
  · injection h with h
    exact Or.inl h.symm
  · exact mapM_error_kind parseTier _ parseTier_error_kind _ e h

theorem make_error_kind (sl : List (List TierLayout)) (e : Err)
    (h : ChipletLayout.make sl = .error e) : e = .valueError := by
  unfold ChipletLayout.make at h
  split_ifs at h
  all_goals
    first
      | exact Except.noConfusion h
      | (injection h with h; exact h.symm)

theorem from_dict_error_kind (data : List (String × PyVal)) (e : Err)
    (h : ChipletLayout.from_dict data = .error e) :
    e = .valueError ∨ e = .typeError := by
  unfold ChipletLayout.from_dict at h
  split at h
  · injection h with h
    exact Or.inl h.symm
  · split at h
    · injection h with h
      exact Or.inl h.symm
    · rcases except_bind_error _ _ _ h with h1 | ⟨parsed, h1, h2⟩
      · exact mapM_error_kind parseStack _ parseStack_error_kind _ e h1
      · exact Or.inl (make_error_kind parsed e h2)

/-- C7 (amended): `from_dict` raises `ValidationError` when the
`"stacks"` key is missing or its value is not a sequence, when a stack
entry is not a sequence, when a tier entry is not a mapping, when a tier
lacks `"rows"`/`"cols"`, or when a required field value is an ASCII
string that `int()` rejects — `int()` strips surrounding whitespace and
accepts an optional sign and an underscore-grouped decimal digit run
(so `"+2"`, `" 2"` and `"2_0"` are coerced, not errors).  A string
field value that `int()` parses is coerced and accepted, a list- or
dict-valued field raises `TypeError` instead, absent
`origin_row`/`origin_col` default to 0, and the only error kinds
`from_dict` raises are `ValidationError` and `TypeError` — never a
bounds error. -/
theorem from_dict_errors_amended :
    (∀ data : List (String × PyVal), pyGetKey data "stacks" = none →
      ChipletLayout.from_dict data = .error .valueError) ∧
    (∀ data : List (String × PyVal), ∀ v, pyGetKey data "stacks" = some v →
      asSequence v = none → ChipletLayout.from_dict data = .error .valueError) ∧
    (∀ v, asSequence v = none → parseStack v = .error .valueError) ∧
    (∀ n : Int, parseTier (.int n) = .error .valueError) ∧
    (∀ st : String, parseTier (.str st) = .error .valueError) ∧
    (∀ xs : List PyVal, parseTier (.list xs) = .error .valueError) ∧
    (∀ kvs, pyGetKey kvs "rows" = none →
      parseTier (.dict kvs) = .error .valueError) ∧
    (∀ kvs st, pyGetKey kvs "rows" = some (.str st) → isAsciiStr st = true →
      strToInt? st = none → parseTier (.dict kvs) = .error .valueError) ∧
    (∀ kvs st n, pyGetKey kvs "rows" = some (.str st) → strToInt? st = some n →
      fetchRequired kvs "rows" = .ok n) ∧
    (strToInt? "+2" = some 2 ∧ strToInt? " 2" = some 2 ∧ strToInt? "2_0" = some 20 ∧
      strToInt? "-4" = some (-4) ∧ strToInt? "abc" = none ∧ strToInt? "" = none) ∧
    (∀ kvs xs, pyGetKey kvs "rows" = some (.list xs) →
      parseTier (.dict kvs) = .error .typeError) ∧
    (∀ kvs, ∀ r c : Int, pyGetKey kvs "rows" = some (.int r) →
      pyGetKey kvs "cols" = some (.int c) →
      pyGetKey kvs "origin_row" = none → pyGetKey kvs "origin_col" = none →
      parseTier (.dict kvs) = mkTierLayout r c 0 0) ∧
    (∀ data : List (String × PyVal), ∀ e,
      ChipletLayout.from_dict data = .error e →
      e = .valueError ∨ e = .typeError) := by
  refine ⟨?_, ?_, ?_, fun n => rfl, fun st => rfl, fun xs => rfl, ?_, ?_, ?_,
    ⟨rfl, rfl, rfl, rfl, rfl, rfl⟩, ?_, ?_, from_dict_error_kind⟩
  · intro data h
    unfold ChipletLayout.from_dict
    rw [h]
  · intro data v h1 h2
    unfold ChipletLayout.from_dict
    rw [h1]
    dsimp only
    rw [h2]
  · intro v h
    unfold parseStack
    rw [h]
  · intro kvs h
    unfold parseTier
    dsimp only
    rw [show fetchRequired kvs "rows" = .error .valueError from by
        unfold fetchRequired; rw [h],
      except_error_bind]
  · intro kvs st h1 hascii h2
    unfold parseTier
    dsimp only
    rw [show fetchRequired kvs "rows" = .error .valueError from by
        unfold fetchRequired
        rw [h1]
        simp only [intCoerce]
        rw [h2],
      except_error_bind]
  · intro kvs st n h1 h2
    unfold fetchRequired
    rw [h1]
    simp only [intCoerce]
    rw [h2]
  · intro kvs xs h
    unfold parseTier
    dsimp only
    rw [show fetchRequired kvs "rows" = .error .typeError from by
        unfold fetchRequired
        rw [h]
        rfl,
      except_error_bind]
  · intro kvs r c h1 h2 h3 h4
    unfold parseTier
    dsimp only
    rw [show fetchRequired kvs "rows" = .ok r from by
        unfold fetchRequired
        rw [h1]
        rfl,
      except_ok_bind,
      show fetchRequired kvs "cols" = .ok c from by
        unfold fetchRequired
        rw [h2]
        rfl,
      except_ok_bind, h3, h4]
    rfl

/-- Witness for the amended C7 theorem at concrete inputs. -/
theorem from_dict_errors_amended_witness :
    ChipletLayout.from_dict [] = .error .valueError ∧
    parseTier (.dict [("rows", .int 2), ("cols", .int 3)]) = mkTierLayout 2 3 0 0 :=
  ⟨from_dict_errors_amended.1 [] rfl,
    from_dict_errors_amended.2.2.2.2.2.2.2.2.2.2.2.1
      [("rows", .int 2), ("cols", .int 3)] 2 3 rfl rfl rfl rfl⟩

end HISIM
